import Mathlib

/-!
Verification of the two scripts of this repository:

* `fix_warnings.py` — a Warning-Patcher that rewrites `let` bindings in two
  Rust files by prefixing the bound identifier with an underscore, via the
  Python substitution
  `re.sub(r'(\s+let\s+)([a-zA-Z_][a-zA-Z0-9_]*)\s*=', r'\1_\2 =', content)`.
* `serve_wasm.py` — a Static Server whose request handler appends two
  cross-origin isolation headers to every response and overrides the MIME
  type for paths ending in `.wasm`.

Text is embedded as `List Char`.  The regular expression is embedded as a
deterministic matcher `matchHere`: this is faithful to Python's backtracking
semantics because the character classes occurring in the pattern
(whitespace, identifier characters, the literal characters of `let` and `=`)
are pairwise disjoint, so greedy maximal-run matching is the only possible
way a match can succeed at a given start position (any backtracking step
immediately fails).  `re_sub` then performs Python's leftmost,
non-overlapping, repeated replacement.
-/

/-- Character class of the regex escape `\s` in Python text-mode patterns:
ASCII whitespace together with the Unicode whitespace code points. -/
def wsChar (c : Char) : Bool :=
  decide ((9 ≤ c.toNat ∧ c.toNat ≤ 13) ∨ (28 ≤ c.toNat ∧ c.toNat ≤ 32) ∨
    c.toNat = 0x85 ∨ c.toNat = 0xa0 ∨ c.toNat = 0x1680 ∨
    (0x2000 ≤ c.toNat ∧ c.toNat ≤ 0x200a) ∨ c.toNat = 0x2028 ∨ c.toNat = 0x2029 ∨
    c.toNat = 0x202f ∨ c.toNat = 0x205f ∨ c.toNat = 0x3000)

/-- Character class `[a-zA-Z_]` (start of the identifier group). -/
def identStartChar (c : Char) : Bool :=
  decide ((65 ≤ c.toNat ∧ c.toNat ≤ 90) ∨ (97 ≤ c.toNat ∧ c.toNat ≤ 122) ∨
    c.toNat = 95)

/-- Character class `[a-zA-Z0-9_]` (continuation of the identifier group). -/
def identContChar (c : Char) : Bool :=
  decide ((65 ≤ c.toNat ∧ c.toNat ≤ 90) ∨ (97 ≤ c.toNat ∧ c.toNat ≤ 122) ∨
    c.toNat = 95 ∨ (48 ≤ c.toNat ∧ c.toNat ≤ 57))

/-- Greedy run of characters satisfying `p` (the semantics of a greedy
`X*` / `X+` over a single character class): returns the maximal prefix all
of whose characters satisfy `p`, together with the remaining suffix. -/
def spanP (p : Char → Bool) : List Char → List Char × List Char
  | [] => ([], [])
  | c :: cs =>
    if p c then (c :: (spanP p cs).1, (spanP p cs).2)
    else ([], c :: cs)

/-- Matching of the literal `let` in the pattern. -/
def stripLet : List Char → Option (List Char)
  | c1 :: c2 :: c3 :: r =>
    if c1 = 'l' ∧ c2 = 'e' ∧ c3 = 't' then some r else none
  | _ => none

/-- Matching of the literal `=` that terminates the pattern. -/
def stripEq : List Char → Option (List Char)
  | [] => none
  | c :: r => if c = '=' then some r else none

/-- Attempt to match `(\s+let\s+)([a-zA-Z_][a-zA-Z0-9_]*)\s*=` at the start
of `s`.  On success returns `(group1, group2, rest)` where `group1` is the
text captured by `(\s+let\s+)`, `group2` the identifier captured by the
second group, and `rest` the input remaining after the `=`.  The `\s*` run
before `=` is consumed but captured by no group. -/
def matchHere (s : List Char) : Option (List Char × List Char × List Char) :=
  if (spanP wsChar s).1 = [] then none else
  match stripLet (spanP wsChar s).2 with
  | none => none
  | some r2 =>
    if (spanP wsChar r2).1 = [] then none else
    match (spanP wsChar r2).2 with
    | [] => none
    | c :: r4 =>
      if identStartChar c then
        match stripEq (spanP wsChar (spanP identContChar r4).2).2 with
        | none => none
        | some r7 =>
          some ((spanP wsChar s).1 ++ 'l' :: 'e' :: 't' :: (spanP wsChar r2).1,
                c :: (spanP identContChar r4).1, r7)
      else none

/-- Fuelled scanner for `re.sub`: at each position try `matchHere`; on a
match emit the replacement `\1_\2 =` and continue after the match, otherwise
keep the character and move one position right.  The fuel only serves
termination; `re_sub` supplies `s.length`, which is always sufficient. -/
def re_sub_go : Nat → List Char → List Char
  | _, [] => []
  | 0, s => s
  | fuel + 1, c :: cs =>
    match matchHere (c :: cs) with
    | some (g1, g2, rest) => g1 ++ '_' :: g2 ++ ' ' :: '=' :: re_sub_go fuel rest
    | none => c :: re_sub_go fuel cs

/-- Embedding of
`re.sub(r'(\s+let\s+)([a-zA-Z_][a-zA-Z0-9_]*)\s*=', r'\1_\2 =', content)`:
leftmost, non-overlapping, repeated replacement over the whole text. -/
def re_sub (s : List Char) : List Char := re_sub_go s.length s

/-- Messages printed by `fix_warnings.py`, one constructor per `print`. -/
inductive LogMsg where
  | fixed : String → LogMsg
  | noChanges : String → LogMsg
  | error : String → LogMsg
  | summary : Nat → LogMsg
deriving DecidableEq

/-- File system: a partial map from paths to text contents, together with a
per-path write-failure flag.  `files path = none` models a path whose read
fails (missing file or any other read error); `writeFails path = true`
models a path whose open-for-writing raises (e.g. a permission error), in
which case the file's prior content is retained.  Both kinds of exception
are caught by the source's bare `except` clause. -/
structure FS where
  files : String → Option (List Char)
  writeFails : String → Bool

/-- Embedding of `fix_unused_variables(file_path)`: read the file, apply the
substitution, write back only when the content changed; any failure raised
while reading or while writing is caught and reported as an error message
with result `False`.  Returns the resulting file system, the boolean
result, and the printed messages. -/
def fix_unused_variables (fs : FS) (path : String) : FS × Bool × List LogMsg :=
  match fs.files path with
  | none => (fs, false, [LogMsg.error path])
  | some content =>
    let content2 := re_sub content
    if content2 ≠ content then
      if fs.writeFails path then
        (fs, false, [LogMsg.error path])
      else
        ({ files := fun p => if p = path then some content2 else fs.files p,
           writeFails := fs.writeFails },
         true, [LogMsg.fixed path])
    else
      (fs, false, [LogMsg.noChanges path])

/-- The hardcoded list `files_to_fix` of `main()`. -/
def files_to_fix : List String :=
  ["examples/mongodb_style_document_demo.rs",
   "examples/advanced_integration_tests.rs"]

/-- Loop body of `main()`: process each file in order, threading the file
system, counting the files reported as changed and collecting the output. -/
def mainLoop : FS → List String → FS × Nat × List LogMsg
  | fs, [] => (fs, 0, [])
  | fs, p :: ps =>
    let r := fix_unused_variables fs p
    let rest := mainLoop r.1 ps
    (rest.1, (if r.2.1 then 1 else 0) + rest.2.1, r.2.2 ++ rest.2.2)

/-- Embedding of `main()` of `fix_warnings.py` (named `fix_warnings_main`
here because Lean reserves the name `main` for executables): run the loop
over `files_to_fix` and print the summary count. -/
def fix_warnings_main (fs : FS) : FS × Nat × List LogMsg :=
  let r := mainLoop fs files_to_fix
  (r.1, r.2.1, r.2.2 ++ [LogMsg.summary r.2.1])

/-- Embedding of `MyHTTPRequestHandler.end_headers`: the two cross-origin
isolation headers are appended to whatever headers were already sent, after
which the header section is terminated by the base class. -/
def end_headers (sent : List (String × String)) : List (String × String) :=
  sent ++ [("Cross-Origin-Embedder-Policy", "require-corp"),
           ("Cross-Origin-Opener-Policy", "same-origin")]

/-- An HTTP response: status code and the headers of its header section. -/
structure HttpResponse where
  status : Nat
  headers : List (String × String)

/-- Modelled from the spec: the underlying serving primitive
(`http.server.SimpleHTTPRequestHandler`, not part of this repository's
sources) terminates the header section of every response it produces —
success, redirect or error — through the handler's `end_headers`, so a
response with status `status` whose handler-sent headers are `sent` carries
exactly `end_headers sent` as its header section. -/
def sendResponse (status : Nat) (sent : List (String × String)) : HttpResponse :=
  { status := status, headers := end_headers sent }

/-- Embedding of `MyHTTPRequestHandler.guess_type`: compute the base class
guess first, then override it for paths ending in `.wasm`.  The base class
guesser is a parameter, as its code is not part of this repository. -/
def guess_type (base : List Char → String) (path : List Char) : String :=
  let mimetype := base path
  if List.isSuffixOf (String.toList ".wasm") path then "application/wasm"
  else mimetype

/-- Lower-casing of an ASCII letter, as applied to file extensions by the
default guesser. -/
def asciiLower (c : Char) : Char :=
  if 65 ≤ c.toNat ∧ c.toNat ≤ 90 then Char.ofNat (c.toNat + 32) else c

/-- Modelled from the spec: the default type-guessing behavior of the
underlying serving primitive (`SimpleHTTPRequestHandler.guess_type` /
`mimetypes`, not part of this repository's sources).  It resolves the file
extension case-insensitively, so any path whose extension lower-cases to
`.wasm` is reported as a WebAssembly module; other extensions are resolved
through its tables, which this model collapses to the fallback type. -/
def default_guess_type (path : List Char) : String :=
  if List.isSuffixOf (String.toList ".wasm") (path.map asciiLower) then
    "application/wasm"
  else "application/octet-stream"

/-- Decomposition relation underlying claim C10: `Frame s t` holds when `t`
is obtained from `s` by keeping every character at which no match of the
pattern starts, and rewriting each matched span
`w1 ++ "let" ++ w2 ++ ident ++ wsp ++ "="` to
`w1 ++ "let" ++ w2 ++ "_" ++ ident ++ " ="` — the leading whitespace, the
keyword, the whitespace after it and the identifier are preserved verbatim,
one underscore is inserted, and only the whitespace before `=` is altered. -/
inductive Frame : List Char → List Char → Prop where
  | nil : Frame [] []
  | keep (c : Char) (s t : List Char) :
      matchHere (c :: s) = none → Frame s t → Frame (c :: s) (c :: t)
  | repl (w1 w2 : List Char) (c : Char) (ids wsp rest t : List Char) :
      w1 ≠ [] → (∀ x ∈ w1, wsChar x = true) →
      w2 ≠ [] → (∀ x ∈ w2, wsChar x = true) →
      identStartChar c = true → (∀ x ∈ ids, identContChar x = true) →
      (∀ x ∈ wsp, wsChar x = true) →
      Frame rest t →
      Frame (w1 ++ 'l' :: 'e' :: 't' :: (w2 ++ c :: (ids ++ wsp ++ '=' :: rest)))
            (w1 ++ 'l' :: 'e' :: 't' :: (w2 ++ '_' :: c :: (ids ++ ' ' :: '=' :: t)))

/-- File system with no readable files, used to exercise the read-error
path. -/
def fsEmpty : FS := ⟨fun _ => none, fun _ => false⟩

/-- File system holding one file whose text contains no match of the
pattern, used to exercise the unchanged path. -/
def fsDemo : FS :=
  ⟨fun p => if p = "demo.rs" then some (String.toList "fn main(); // ok")
            else none,
   fun _ => false⟩

/-- File system whose only file matches the pattern (so its content would
change) but whose writes all fail, used to exercise the write-error path. -/
def fsReadOnly : FS :=
  ⟨fun p => if p = "examples/mongodb_style_document_demo.rs"
            then some (String.toList "    let x = 5;") else none,
   fun _ => true⟩

/-! ### Character class lemmas -/

theorem identCont_of_identStart {c : Char} (h : identStartChar c = true) :
    identContChar c = true := by
  simp only [identStartChar, decide_eq_true_eq] at h
  simp only [identContChar, decide_eq_true_eq]
  omega

theorem ws_eq_false_of_identCont {c : Char} (h : identContChar c = true) :
    wsChar c = false := by
  simp only [identContChar, decide_eq_true_eq] at h
  simp only [wsChar, decide_eq_false_iff_not]
  omega

theorem ws_eq_false_of_identStart {c : Char} (h : identStartChar c = true) :
    wsChar c = false :=
  ws_eq_false_of_identCont (identCont_of_identStart h)

theorem identCont_eq_false_of_ws {c : Char} (h : wsChar c = true) :
    identContChar c = false := by
  simp only [wsChar, decide_eq_true_eq] at h
  simp only [identContChar, decide_eq_false_iff_not]
  omega

/-! ### Lemmas about the greedy run function -/

theorem spanP_append (p : Char → Bool) (l : List Char) :
    (spanP p l).1 ++ (spanP p l).2 = l := by
  induction l with
  | nil => rfl
  | cons c cs ih => cases hc : p c <;> simp [spanP, hc, ih]

theorem spanP_all (p : Char → Bool) (l : List Char) :
    ∀ x ∈ (spanP p l).1, p x = true := by
  induction l with
  | nil => simp [spanP]
  | cons c cs ih =>
    cases hc : p c with
    | false => simp [spanP, hc]
    | true =>
      simp only [spanP, hc, if_true, List.mem_cons]
      rintro x (rfl | hx)
      · exact hc
      · exact ih x hx

theorem spanP_eq_append (p : Char → Bool) {a b : List Char}
    (ha : ∀ x ∈ a, p x = true)
    (hb : ∀ c cs, b = c :: cs → p c = false) :
    spanP p (a ++ b) = (a, b) := by
  induction a with
  | nil =>
    cases b with
    | nil => rfl
    | cons c cs => simp [spanP, hb c cs rfl]
  | cons x xs ih =>
    have hx : p x = true := ha x (by simp)
    have ih2 := ih (fun y hy => ha y (by simp [hy]))
    simp [spanP, hx, ih2]

/-! ### Lemmas about the literal matchers -/

theorem stripLet_let (r : List Char) :
    stripLet ('l' :: 'e' :: 't' :: r) = some r := by
  simp [stripLet]

theorem stripLet_sound {r r2 : List Char} (h : stripLet r = some r2) :
    r = 'l' :: 'e' :: 't' :: r2 := by
  match r with
  | [] => simp [stripLet] at h
  | [c] => simp [stripLet] at h
  | [c, d] => simp [stripLet] at h
  | c1 :: c2 :: c3 :: rr =>
    by_cases hcond : c1 = 'l' ∧ c2 = 'e' ∧ c3 = 't'
    · obtain ⟨h1, h2, h3⟩ := hcond
      subst h1; subst h2; subst h3
      simp only [stripLet_let, Option.some.injEq] at h
      rw [h]
    · simp [stripLet, hcond] at h

theorem stripLet_none {c1 : Char} (h : c1 ≠ 'l') (l : List Char) :
    stripLet (c1 :: l) = none := by
  match l with
  | [] => simp [stripLet]
  | [c2] => simp [stripLet]
  | c2 :: c3 :: r => simp [stripLet, h]

theorem stripEq_eq (r : List Char) : stripEq ('=' :: r) = some r := by
  simp [stripEq]

theorem stripEq_sound {r r7 : List Char} (h : stripEq r = some r7) :
    r = '=' :: r7 := by
  match r with
  | [] => simp [stripEq] at h
  | c :: rr =>
    by_cases hc : c = '='
    · subst hc
      simp only [stripEq_eq, Option.some.injEq] at h
      rw [h]
    · simp [stripEq, hc] at h

/-! ### Lemmas about the matcher -/

theorem matchHere_nil : matchHere [] = none := rfl

theorem mh_none_nonspace {c : Char} {cs : List Char} (h : wsChar c = false) :
    matchHere (c :: cs) = none := by
  simp [matchHere, spanP, h]

theorem mh_none_space_nonl {c d : Char} {cs : List Char}
    (hc : wsChar c = true) (hd : wsChar d = false) (hdl : d ≠ 'l') :
    matchHere (c :: d :: cs) = none := by
  have hspan : spanP wsChar (c :: d :: cs) = ([c], d :: cs) := by
    simp [spanP, hc, hd]
  simp [matchHere, hspan, stripLet_none hdl]

theorem matchHere_complete {w1 w2 : List Char} {c : Char} {ids wsp rest : List Char}
    (hw1 : w1 ≠ []) (hw1s : ∀ x ∈ w1, wsChar x = true)
    (hw2 : w2 ≠ []) (hw2s : ∀ x ∈ w2, wsChar x = true)
    (hc : identStartChar c = true)
    (hids : ∀ x ∈ ids, identContChar x = true)
    (hwsp : ∀ x ∈ wsp, wsChar x = true) :
    matchHere (w1 ++ 'l' :: 'e' :: 't' :: (w2 ++ c :: (ids ++ (wsp ++ '=' :: rest))))
      = some (w1 ++ 'l' :: 'e' :: 't' :: w2, c :: ids, rest) := by
  have e1 : spanP wsChar
      (w1 ++ 'l' :: 'e' :: 't' :: (w2 ++ c :: (ids ++ (wsp ++ '=' :: rest))))
      = (w1, 'l' :: 'e' :: 't' :: (w2 ++ c :: (ids ++ (wsp ++ '=' :: rest)))) :=
    spanP_eq_append _ hw1s (by
      intro c' cs' hb
      injection hb with hb1 _
      rw [← hb1]
      decide)
  have e2 : spanP wsChar (w2 ++ c :: (ids ++ (wsp ++ '=' :: rest)))
      = (w2, c :: (ids ++ (wsp ++ '=' :: rest))) :=
    spanP_eq_append _ hw2s (by
      intro c' cs' hb
      injection hb with hb1 _
      rw [← hb1]
      exact ws_eq_false_of_identStart hc)
  have e3 : spanP identContChar (ids ++ (wsp ++ '=' :: rest))
      = (ids, wsp ++ '=' :: rest) :=
    spanP_eq_append _ hids (by
      intro c' cs' hb
      cases wsp with
      | nil =>
        have hb' : '=' :: rest = c' :: cs' := hb
        injection hb' with hb1 _
        rw [← hb1]
        decide
      | cons w ws' =>
        have hb' : w :: (ws' ++ '=' :: rest) = c' :: cs' := hb
        injection hb' with hb1 _
        rw [← hb1]
        exact identCont_eq_false_of_ws (hwsp w (by simp)))
  have e4 : spanP wsChar (wsp ++ '=' :: rest) = (wsp, '=' :: rest) :=
    spanP_eq_append _ hwsp (by
      intro c' cs' hb
      injection hb with hb1 _
      rw [← hb1]
      decide)
  simp [matchHere, e1, e2, e3, e4, stripLet_let, stripEq_eq, hw1, hw2, hc]

theorem matchHere_sound {s g1 g2 r7 : List Char}
    (h : matchHere s = some (g1, g2, r7)) :
    ∃ w1 w2 c ids wsp, w1 ≠ [] ∧ (∀ x ∈ w1, wsChar x = true) ∧
      w2 ≠ [] ∧ (∀ x ∈ w2, wsChar x = true) ∧
      identStartChar c = true ∧ (∀ x ∈ ids, identContChar x = true) ∧
      (∀ x ∈ wsp, wsChar x = true) ∧
      g1 = w1 ++ 'l' :: 'e' :: 't' :: w2 ∧ g2 = c :: ids ∧
      s = w1 ++ 'l' :: 'e' :: 't' :: (w2 ++ c :: (ids ++ (wsp ++ '=' :: r7))) := by
  unfold matchHere at h
  split at h
  · exact Option.noConfusion h
  rename_i h1
  split at h
  · exact Option.noConfusion h
  rename_i r2 hL
  split at h
  · exact Option.noConfusion h
  rename_i h2
  split at h
  · exact Option.noConfusion h
  rename_i c r4 hM
  split at h
  case isFalse => exact Option.noConfusion h
  rename_i h3
  split at h
  · exact Option.noConfusion h
  rename_i r7' hE
  simp only [Option.some.injEq, Prod.mk.injEq] at h
  obtain ⟨hg1, hg2, hr7⟩ := h
  refine ⟨(spanP wsChar s).1, (spanP wsChar r2).1, c,
    (spanP identContChar r4).1, (spanP wsChar (spanP identContChar r4).2).1,
    h1, spanP_all _ _, h2, spanP_all _ _, h3, spanP_all _ _, spanP_all _ _,
    hg1.symm, hg2.symm, ?_⟩
  have es : (spanP wsChar s).1 ++ (spanP wsChar s).2 = s := spanP_append _ _
  have e2 : (spanP wsChar r2).1 ++ (spanP wsChar r2).2 = r2 := spanP_append _ _
  have e4 : (spanP identContChar r4).1 ++ (spanP identContChar r4).2 = r4 :=
    spanP_append _ _
  have e5 : (spanP wsChar (spanP identContChar r4).2).1 ++
      (spanP wsChar (spanP identContChar r4).2).2 = (spanP identContChar r4).2 :=
    spanP_append _ _
  have hLs : (spanP wsChar s).2 = 'l' :: 'e' :: 't' :: r2 := stripLet_sound hL
  have hEs : (spanP wsChar (spanP identContChar r4).2).2 = '=' :: r7' :=
    stripEq_sound hE
  calc s = (spanP wsChar s).1 ++ (spanP wsChar s).2 := es.symm
    _ = (spanP wsChar s).1 ++ ('l' :: 'e' :: 't' :: r2) := by rw [hLs]
    _ = (spanP wsChar s).1 ++ ('l' :: 'e' :: 't' ::
          ((spanP wsChar r2).1 ++ (spanP wsChar r2).2)) := by rw [e2]
    _ = (spanP wsChar s).1 ++ ('l' :: 'e' :: 't' ::
          ((spanP wsChar r2).1 ++ (c :: r4))) := by rw [hM]
    _ = (spanP wsChar s).1 ++ ('l' :: 'e' :: 't' ::
          ((spanP wsChar r2).1 ++ (c ::
            ((spanP identContChar r4).1 ++ (spanP identContChar r4).2)))) := by
        rw [e4]
    _ = (spanP wsChar s).1 ++ ('l' :: 'e' :: 't' ::
          ((spanP wsChar r2).1 ++ (c :: ((spanP identContChar r4).1 ++
            ((spanP wsChar (spanP identContChar r4).2).1 ++
             (spanP wsChar (spanP identContChar r4).2).2))))) := by
        rw [e5]
    _ = (spanP wsChar s).1 ++ ('l' :: 'e' :: 't' ::
          ((spanP wsChar r2).1 ++ (c :: ((spanP identContChar r4).1 ++
            ((spanP wsChar (spanP identContChar r4).2).1 ++ ('=' :: r7)))))) := by
        rw [hEs, hr7]

theorem matchHere_rest_lt {s g1 g2 r : List Char}
    (h : matchHere s = some (g1, g2, r)) : r.length < s.length := by
  obtain ⟨w1, w2, c, ids, wsp, hw1, -, -, -, -, -, -, -, -, hs⟩ := matchHere_sound h
  have hw1len : 0 < w1.length := List.length_pos.mpr hw1
  rw [hs]
  simp [List.length_append]
  omega

theorem re_sub_go_fuel (f : Nat) :
    ∀ s : List Char, s.length ≤ f → re_sub_go f s = re_sub s := by
  induction f using Nat.strong_induction_on with
  | _ f ih =>
    intro s hs
    cases s with
    | nil => cases f <;> rfl
    | cons c cs =>
      cases f with
      | zero => simp at hs
      | succ f' =>
        have hcs : cs.length ≤ f' := by
          simp only [List.length_cons] at hs
          omega
        show re_sub_go (f' + 1) (c :: cs) = re_sub (c :: cs)
        have hRHS : re_sub (c :: cs) = re_sub_go (cs.length + 1) (c :: cs) := rfl
        rw [hRHS]
        cases h : matchHere (c :: cs) with
        | none =>
          simp only [re_sub_go, h]
          rw [ih f' (by omega) cs hcs]
          rw [ih cs.length (by omega) cs (le_refl _)]
        | some g =>
          obtain ⟨g1, g2, r⟩ := g
          have hr : r.length < cs.length + 1 := by
            have := matchHere_rest_lt h
            simpa using this
          simp only [re_sub_go, h]
          rw [ih f' (by omega) r (by omega)]
          rw [ih cs.length (by omega) r (by omega)]

theorem re_sub_nil : re_sub [] = [] := rfl

theorem re_sub_cons_none {c : Char} {cs : List Char}
    (h : matchHere (c :: cs) = none) : re_sub (c :: cs) = c :: re_sub cs := by
  have hL : re_sub (c :: cs) = re_sub_go (cs.length + 1) (c :: cs) := rfl
  rw [hL]
  simp only [re_sub_go, h]
  rw [re_sub_go_fuel cs.length cs (le_refl _)]

theorem re_sub_match {s g1 g2 r : List Char}
    (h : matchHere s = some (g1, g2, r)) :
    re_sub s = g1 ++ '_' :: g2 ++ ' ' :: '=' :: re_sub r := by
  cases s with
  | nil => rw [matchHere_nil] at h; cases h
  | cons c cs =>
    have hr : r.length ≤ cs.length := by
      have := matchHere_rest_lt h
      simp only [List.length_cons] at this
      omega
    have hL : re_sub (c :: cs) = re_sub_go (cs.length + 1) (c :: cs) := rfl
    rw [hL]
    simp only [re_sub_go, h]
    rw [re_sub_go_fuel cs.length r hr]

theorem re_sub_eq_self {s : List Char}
    (h : ∀ i < s.length, matchHere (List.drop i s) = none) : re_sub s = s := by
  induction s with
  | nil => rfl
  | cons c cs ih =>
    have h0 : matchHere (c :: cs) = none := by
      have := h 0 (by simp)
      simpa using this
    have hshift : ∀ i < cs.length, matchHere (List.drop i cs) = none := by
      intro i hi
      have := h (i + 1) (by simp only [List.length_cons]; omega)
      simpa using this
    rw [re_sub_cons_none h0, ih hshift]

theorem re_sub_append_of_nomatch {a : List Char} (b : List Char)
    (h : ∀ i < a.length, matchHere (List.drop i a ++ b) = none) :
    re_sub (a ++ b) = a ++ re_sub b := by
  induction a with
  | nil => simp
  | cons x xs ih =>
    have h0 : matchHere (x :: (xs ++ b)) = none := by
      have := h 0 (by simp)
      simpa using this
    have hshift : ∀ i < xs.length, matchHere (List.drop i xs ++ b) = none := by
      intro i hi
      have := h (i + 1) (by simp only [List.length_cons]; omega)
      simpa using this
    rw [List.cons_append, re_sub_cons_none h0, ih hshift, List.cons_append]

theorem re_sub_shape {w1 w2 : List Char} {c : Char} {ids wsp rest : List Char}
    (hw1 : w1 ≠ []) (hw1s : ∀ x ∈ w1, wsChar x = true)
    (hw2 : w2 ≠ []) (hw2s : ∀ x ∈ w2, wsChar x = true)
    (hc : identStartChar c = true)
    (hids : ∀ x ∈ ids, identContChar x = true)
    (hwsp : ∀ x ∈ wsp, wsChar x = true) :
    re_sub (w1 ++ 'l' :: 'e' :: 't' :: (w2 ++ c :: (ids ++ (wsp ++ '=' :: rest))))
      = w1 ++ 'l' :: 'e' :: 't' :: (w2 ++ '_' :: c :: (ids ++ ' ' :: '=' :: re_sub rest)) := by
  rw [re_sub_match (matchHere_complete hw1 hw1s hw2 hw2s hc hids hwsp)]
  simp [List.append_assoc]

theorem frame_aux (n : Nat) :
    ∀ s : List Char, s.length ≤ n → Frame s (re_sub s) := by
  induction n using Nat.strong_induction_on with
  | _ n ih =>
    intro s hs
    cases s with
    | nil => rw [re_sub_nil]; exact Frame.nil
    | cons c cs =>
      cases hm : matchHere (c :: cs) with
      | none =>
        rw [re_sub_cons_none hm]
        have hlen : cs.length < n := by
          simp only [List.length_cons] at hs
          omega
        exact Frame.keep c cs (re_sub cs) hm (ih cs.length hlen cs (le_refl _))
      | some g =>
        obtain ⟨g1, g2, r⟩ := g
        have hrlt : r.length < n :=
          lt_of_lt_of_le (matchHere_rest_lt hm) hs
        have hfr : Frame r (re_sub r) := ih r.length hrlt r (le_refl _)
        obtain ⟨w1, w2, c', ids, wsp, hw1, hw1s, hw2, hw2s, hc', hids, hwsp,
          hg1, hg2, hsEq⟩ := matchHere_sound hm
        rw [re_sub_match hm, hsEq, hg1, hg2]
        have hrepl := Frame.repl w1 w2 c' ids wsp r (re_sub r)
          hw1 hw1s hw2 hw2s hc' hids hwsp hfr
        simpa [List.append_assoc] using hrepl

theorem stripEq_none {c : Char} (h : c ≠ '=') (r : List Char) :
    stripEq (c :: r) = none := by
  simp [stripEq, h]

/-! ### Claim theorems -/

/-- C1 counterexample: the claim says a line whose `let` has no leading
whitespace on its own line is left unchanged at every position in the file,
not only the first line.  This fails for any position after the first line:
the newline terminating the previous line satisfies the pattern's leading
`\s+`.  Concretely, `x\nlet outer_result = 5;` is rewritten to
`x\nlet _outer_result = 5;`. -/
theorem C1_counterexample :
    re_sub (String.toList "x\nlet outer_result = 5;")
        = String.toList "x\nlet _outer_result = 5;" ∧
      re_sub (String.toList "x\nlet outer_result = 5;")
        ≠ String.toList "x\nlet outer_result = 5;" := by
  constructor
  · decide
  · decide

/-- C1 (amended): a line `let outer_result = 5;` whose binding keyword has
no leading whitespace is left unchanged by the substitution when it is the
first line of the file (the keyword stands at the very start of the text,
whatever follows); on a later line the preceding newline satisfies the
pattern's leading-whitespace requirement and the binding is rewritten. -/
theorem C1_first_line_unchanged :
    (∀ rest : List Char,
      re_sub (String.toList "let outer_result = 5;" ++ rest)
        = String.toList "let outer_result = 5;" ++ re_sub rest) ∧
    re_sub (String.toList "let outer_result = 5;")
      = String.toList "let outer_result = 5;" := by
  have hline : ∀ rest : List Char,
      re_sub (String.toList "let outer_result = 5;" ++ rest)
        = String.toList "let outer_result = 5;" ++ re_sub rest := by
    intro rest
    apply re_sub_append_of_nomatch
    intro i hi
    rw [show (String.toList "let outer_result = 5;").length = 21 from rfl] at hi
    interval_cases i <;>
      first
        | exact mh_none_nonspace (by decide)
        | exact mh_none_space_nonl (by decide) (by decide) (by decide)
  refine ⟨hline, ?_⟩
  have := hline []
  simpa using this

/-- C2 counterexample: the claim asserts the substitution is idempotent.
It is not: `    let x = 5;` becomes `    let _x = 5;` after one pass, and a
second pass matches the rewritten binding again (its identifier `_x` starts
with an underscore, which the identifier class admits) and produces
`    let __x = 5;`. -/
theorem C2_counterexample :
    re_sub (String.toList "    let x = 5;") = String.toList "    let _x = 5;" ∧
    re_sub (re_sub (String.toList "    let x = 5;"))
      = String.toList "    let __x = 5;" ∧
    re_sub (re_sub (String.toList "    let x = 5;"))
      ≠ re_sub (String.toList "    let x = 5;") := by
  refine ⟨by decide, by decide, by decide⟩

/-- C2 (amended): for every text of the matched form, one application of the
substitution prefixes the identifier with exactly one underscore; the
substitution is however not idempotent: the rewritten binding still matches
the pattern, so a second application prefixes one further underscore. -/
theorem C2_not_idempotent {w1 w2 : List Char} {c : Char} {ids wsp rest : List Char}
    (hw1 : w1 ≠ []) (hw1s : ∀ x ∈ w1, wsChar x = true)
    (hw2 : w2 ≠ []) (hw2s : ∀ x ∈ w2, wsChar x = true)
    (hc : identStartChar c = true)
    (hids : ∀ x ∈ ids, identContChar x = true)
    (hwsp : ∀ x ∈ wsp, wsChar x = true) :
    re_sub (w1 ++ 'l' :: 'e' :: 't' :: (w2 ++ c :: (ids ++ (wsp ++ '=' :: rest))))
      = w1 ++ 'l' :: 'e' :: 't' :: (w2 ++ '_' :: c :: (ids ++ ' ' :: '=' :: re_sub rest)) ∧
    re_sub (re_sub (w1 ++ 'l' :: 'e' :: 't' :: (w2 ++ c :: (ids ++ (wsp ++ '=' :: rest)))))
      = w1 ++ 'l' :: 'e' :: 't' ::
          (w2 ++ '_' :: '_' :: c :: (ids ++ ' ' :: '=' :: re_sub (re_sub rest))) := by
  have hids2 : ∀ x ∈ c :: ids, identContChar x = true := by
    intro x hx
    rcases List.mem_cons.mp hx with rfl | hx'
    · exact identCont_of_identStart hc
    · exact hids x hx'
  have h1 := @re_sub_shape w1 w2 c ids wsp rest hw1 hw1s hw2 hw2s hc hids hwsp
  refine ⟨h1, ?_⟩
  rw [h1]
  have h2 := @re_sub_shape w1 w2 '_' (c :: ids) [' '] (re_sub rest)
    hw1 hw1s hw2 hw2s (by decide) hids2 (by decide)
  simpa using h2

/-- C3: every response of the Static Server — whatever the request path,
method or status code, including 404 responses — carries both
`Cross-Origin-Embedder-Policy: require-corp` and
`Cross-Origin-Opener-Policy: same-origin`, because `end_headers` appends
both headers unconditionally before the header section is terminated. -/
theorem C3_headers_on_every_response (status : Nat) (sent : List (String × String)) :
    ("Cross-Origin-Embedder-Policy", "require-corp")
        ∈ (sendResponse status sent).headers ∧
      ("Cross-Origin-Opener-Policy", "same-origin")
        ∈ (sendResponse status sent).headers := by
  constructor <;> simp [sendResponse, end_headers]

/-- C4 counterexample: the claim states the MIME resolution returns
`application/wasm` if and only if the path ends in `.wasm` (case-sensitive,
as in the code's endswith test).  The only-if direction fails: for the path
`module.WASM` the endswith test is false, so the handler returns the default
guesser's result, and the default guesser resolves the extension
case-insensitively to the WebAssembly type itself. -/
theorem C4_counterexample :
    guess_type default_guess_type (String.toList "module.WASM")
        = "application/wasm" ∧
      List.isSuffixOf (String.toList ".wasm") (String.toList "module.WASM")
        = false := by
  refine ⟨by decide, by decide⟩

/-- C4 (amended): the MIME resolution returns `application/wasm` for every
path ending in `.wasm`, overriding whatever the default guesser returned;
for every other path it returns exactly the default guesser's result (which
may itself be `application/wasm`, e.g. for an upper-case `.WASM` extension
resolved case-insensitively by the default guesser). -/
theorem C4_wasm_override (base : List Char → String) (path : List Char) :
    (List.isSuffixOf (String.toList ".wasm") path = true →
      guess_type base path = "application/wasm") ∧
    (List.isSuffixOf (String.toList ".wasm") path = false →
      guess_type base path = base path) := by
  refine ⟨fun h => ?_, fun h => ?_⟩
  · show (if List.isSuffixOf (String.toList ".wasm") path = true
        then "application/wasm" else base path) = "application/wasm"
    rw [if_pos h]
  · show (if List.isSuffixOf (String.toList ".wasm") path = true
        then "application/wasm" else base path) = base path
    rw [if_neg (fun hc => Bool.noConfusion (h ▸ hc))]

/-- C4 witness: the override applies to `a.wasm` even against a base
guesser answering `text/plain`, and a non-`.wasm` path is resolved exactly
by the base guesser. -/
theorem C4_witness :
    guess_type (fun _ => "text/plain") (String.toList "a.wasm")
        = "application/wasm" ∧
      guess_type default_guess_type (String.toList "a.txt")
        = default_guess_type (String.toList "a.txt") :=
  ⟨(C4_wasm_override (fun _ => "text/plain") (String.toList "a.wasm")).1 (by decide),
   (C4_wasm_override default_guess_type (String.toList "a.txt")).2 (by decide)⟩

/-- C5: any failure of `fix_unused_variables` to read or to write the file
is caught inside the function: a read failure (missing file or any other
error raised while reading, first conjunct) and a write failure of a file
whose content changed (the open-for-writing raising, second conjunct) both
return `False`, leave the file system untouched and print one message
naming the file; the driver then continues with the remaining file, and the
failed file contributes nothing to the summary count, whether the failure
was a read failure (third conjunct) or a write failure (fourth). -/
theorem C5_error_contained :
    (∀ (fs : FS) (path : String), fs.files path = none →
      fix_unused_variables fs path = (fs, false, [LogMsg.error path])) ∧
    (∀ (fs : FS) (path : String) (content : List Char),
      fs.files path = some content → re_sub content ≠ content →
      fs.writeFails path = true →
      fix_unused_variables fs path = (fs, false, [LogMsg.error path])) ∧
    (∀ fs : FS, fs.files "examples/mongodb_style_document_demo.rs" = none →
      fix_warnings_main fs =
        ((fix_unused_variables fs "examples/advanced_integration_tests.rs").1,
         (if (fix_unused_variables fs "examples/advanced_integration_tests.rs").2.1
            then 1 else 0),
         LogMsg.error "examples/mongodb_style_document_demo.rs" ::
           ((fix_unused_variables fs "examples/advanced_integration_tests.rs").2.2 ++
            [LogMsg.summary (if (fix_unused_variables fs
              "examples/advanced_integration_tests.rs").2.1 then 1 else 0)]))) ∧
    (∀ (fs : FS) (content : List Char),
      fs.files "examples/mongodb_style_document_demo.rs" = some content →
      re_sub content ≠ content →
      fs.writeFails "examples/mongodb_style_document_demo.rs" = true →
      fix_warnings_main fs =
        ((fix_unused_variables fs "examples/advanced_integration_tests.rs").1,
         (if (fix_unused_variables fs "examples/advanced_integration_tests.rs").2.1
            then 1 else 0),
         LogMsg.error "examples/mongodb_style_document_demo.rs" ::
           ((fix_unused_variables fs "examples/advanced_integration_tests.rs").2.2 ++
            [LogMsg.summary (if (fix_unused_variables fs
              "examples/advanced_integration_tests.rs").2.1 then 1 else 0)]))) := by
  have h1 : ∀ (fs : FS) (path : String), fs.files path = none →
      fix_unused_variables fs path = (fs, false, [LogMsg.error path]) := by
    intro fs path h
    simp [fix_unused_variables, h]
  have h2 : ∀ (fs : FS) (path : String) (content : List Char),
      fs.files path = some content → re_sub content ≠ content →
      fs.writeFails path = true →
      fix_unused_variables fs path = (fs, false, [LogMsg.error path]) := by
    intro fs path content hr hc hw
    simp [fix_unused_variables, hr, hc, hw]
  refine ⟨h1, h2, ?_, ?_⟩
  · intro fs h
    simp only [fix_warnings_main, files_to_fix, mainLoop, h1 fs _ h]
    simp
  · intro fs content hr hc hw
    simp only [fix_warnings_main, files_to_fix, mainLoop,
      h2 fs _ content hr hc hw]
    simp

/-- C5 witness: on a file system with no readable files the first file's
read failure is contained and the driver still processes the second file;
on a file system whose only file matches the pattern but cannot be written,
the write failure is likewise contained, the file system is untouched, and
the failed file is excluded from the driver's count. -/
theorem C5_witness :
    fix_unused_variables fsEmpty "examples/mongodb_style_document_demo.rs"
        = (fsEmpty, false,
           [LogMsg.error "examples/mongodb_style_document_demo.rs"]) ∧
    fix_unused_variables fsReadOnly "examples/mongodb_style_document_demo.rs"
        = (fsReadOnly, false,
           [LogMsg.error "examples/mongodb_style_document_demo.rs"]) ∧
    fix_warnings_main fsEmpty =
        ((fix_unused_variables fsEmpty "examples/advanced_integration_tests.rs").1,
         (if (fix_unused_variables fsEmpty
            "examples/advanced_integration_tests.rs").2.1 then 1 else 0),
         LogMsg.error "examples/mongodb_style_document_demo.rs" ::
           ((fix_unused_variables fsEmpty
              "examples/advanced_integration_tests.rs").2.2 ++
            [LogMsg.summary (if (fix_unused_variables fsEmpty
              "examples/advanced_integration_tests.rs").2.1 then 1 else 0)])) ∧
    fix_warnings_main fsReadOnly =
        ((fix_unused_variables fsReadOnly "examples/advanced_integration_tests.rs").1,
         (if (fix_unused_variables fsReadOnly
            "examples/advanced_integration_tests.rs").2.1 then 1 else 0),
         LogMsg.error "examples/mongodb_style_document_demo.rs" ::
           ((fix_unused_variables fsReadOnly
              "examples/advanced_integration_tests.rs").2.2 ++
            [LogMsg.summary (if (fix_unused_variables fsReadOnly
              "examples/advanced_integration_tests.rs").2.1 then 1 else 0)])) :=
  ⟨C5_error_contained.1 fsEmpty "examples/mongodb_style_document_demo.rs" rfl,
   C5_error_contained.2.1 fsReadOnly "examples/mongodb_style_document_demo.rs"
     (String.toList "    let x = 5;") rfl (by decide) rfl,
   C5_error_contained.2.2.1 fsEmpty rfl,
   C5_error_contained.2.2.2 fsReadOnly (String.toList "    let x = 5;")
     rfl (by decide) rfl⟩

/-- C6: when no position of the file's text matches the pattern, the
transformed text is identical to the input, the function reports the file
unchanged (`False`) and performs no write: the returned file system is the
input file system itself. -/
theorem C6_unchanged_not_written (fs : FS) (path : String) (content : List Char)
    (hread : fs.files path = some content)
    (hnm : ∀ i < content.length, matchHere (List.drop i content) = none) :
    fix_unused_variables fs path = (fs, false, [LogMsg.noChanges path]) := by
  have heq : re_sub content = content := re_sub_eq_self hnm
  simp [fix_unused_variables, hread, heq]

/-- C6 witness: a file whose text `fn main(); // ok` matches nowhere is
reported unchanged and the file system is left untouched. -/
theorem C6_witness :
    fix_unused_variables fsDemo "demo.rs"
      = (fsDemo, false, [LogMsg.noChanges "demo.rs"]) :=
  C6_unchanged_not_written fsDemo "demo.rs" (String.toList "fn main(); // ok")
    (by decide) (by decide)

/-- C7: the driver iterates exactly the two hardcoded paths in order,
invokes `fix_unused_variables` on each (threading the file system), and the
summary count equals the number of files reported as changed. -/
theorem C7_driver (fs : FS) :
    files_to_fix = ["examples/mongodb_style_document_demo.rs",
                    "examples/advanced_integration_tests.rs"] ∧
    fix_warnings_main fs =
      ((fix_unused_variables (fix_unused_variables fs
          "examples/mongodb_style_document_demo.rs").1
          "examples/advanced_integration_tests.rs").1,
       (if (fix_unused_variables fs "examples/mongodb_style_document_demo.rs").2.1
          then 1 else 0) +
       (if (fix_unused_variables (fix_unused_variables fs
            "examples/mongodb_style_document_demo.rs").1
            "examples/advanced_integration_tests.rs").2.1 then 1 else 0),
       (fix_unused_variables fs "examples/mongodb_style_document_demo.rs").2.2 ++
       ((fix_unused_variables (fix_unused_variables fs
           "examples/mongodb_style_document_demo.rs").1
           "examples/advanced_integration_tests.rs").2.2 ++
        [LogMsg.summary ((if (fix_unused_variables fs
            "examples/mongodb_style_document_demo.rs").2.1 then 1 else 0) +
          (if (fix_unused_variables (fix_unused_variables fs
              "examples/mongodb_style_document_demo.rs").1
              "examples/advanced_integration_tests.rs").2.1 then 1 else 0))])) := by
  refine ⟨rfl, ?_⟩
  simp [fix_warnings_main, files_to_fix, mainLoop]

/-- C8: in every match of the substitution, the whitespace run `\s*`
standing between the identifier and the `=` sign is consumed outside both
capture groups and the replacement writes a single space in its place, so
`let x=1` gains a space (`let _x =1`), `let x   = 1` collapses to one space,
and — since the whitespace class contains the newline — a binding whose `=`
begins on the following line is joined onto one line. -/
theorem C8_gap_collapsed_to_one_space
    {w1 w2 : List Char} {c : Char} {ids wsp rest : List Char}
    (hw1 : w1 ≠ []) (hw1s : ∀ x ∈ w1, wsChar x = true)
    (hw2 : w2 ≠ []) (hw2s : ∀ x ∈ w2, wsChar x = true)
    (hc : identStartChar c = true)
    (hids : ∀ x ∈ ids, identContChar x = true)
    (hwsp : ∀ x ∈ wsp, wsChar x = true) :
    re_sub (w1 ++ 'l' :: 'e' :: 't' :: (w2 ++ c :: (ids ++ (wsp ++ '=' :: rest))))
      = w1 ++ 'l' :: 'e' :: 't' ::
          (w2 ++ '_' :: c :: (ids ++ ' ' :: '=' :: re_sub rest)) :=
  re_sub_shape hw1 hw1s hw2 hw2s hc hids hwsp

/-- C8 witness: `    let x=1` becomes `    let _x =1` (no whitespace before
`=`, one space inserted), and `    let x\n  = 1` is joined onto one line as
`    let _x = 1` (the newline run is replaced by the single space). -/
theorem C8_witness :
    re_sub ([' '] ++ 'l' :: 'e' :: 't' ::
        ([' '] ++ 'x' :: ([] ++ ([] ++ '=' :: ['1']))))
      = [' '] ++ 'l' :: 'e' :: 't' ::
          ([' '] ++ '_' :: 'x' :: ([] ++ ' ' :: '=' :: re_sub ['1'])) ∧
    re_sub ([' '] ++ 'l' :: 'e' :: 't' ::
        ([' '] ++ 'x' :: ([] ++ (['\n', ' ', ' '] ++ '=' :: [' ', '1']))))
      = [' '] ++ 'l' :: 'e' :: 't' ::
          ([' '] ++ '_' :: 'x' :: ([] ++ ' ' :: '=' :: re_sub [' ', '1'])) :=
  ⟨C8_gap_collapsed_to_one_space (by decide) (by decide) (by decide) (by decide)
     (by decide) (by decide) (by decide),
   C8_gap_collapsed_to_one_space (by decide) (by decide) (by decide) (by decide)
     (by decide) (by decide) (by decide)⟩

/-- C9: a binding whose first identifier is not followed — after an optional
whitespace run — by an `=` sign is not matched by the pattern: the first
conjunct shows the match fails at such a position whenever the character
after the (identifier, whitespace) pair is neither `=` nor whitespace nor,
when the whitespace run is empty, an identifier character (covering
`let x: T = ...` at `:` and `let mut x = ...` at the `x` after `mut`); the
second shows it fails when the character after `let ` cannot start an
identifier (covering `let (a, b) = ...` at `(`); the remaining conjuncts
check a type-ascribed, a `let mut`, and a destructuring line verbatim. -/
theorem C9_non_value_bindings_unchanged :
    (∀ (w1 w2 : List Char) (c : Char) (ids wsp : List Char) (d : Char)
        (rest : List Char),
      w1 ≠ [] → (∀ x ∈ w1, wsChar x = true) →
      w2 ≠ [] → (∀ x ∈ w2, wsChar x = true) →
      identStartChar c = true → (∀ x ∈ ids, identContChar x = true) →
      (∀ x ∈ wsp, wsChar x = true) →
      wsChar d = false → d ≠ '=' → (wsp = [] → identContChar d = false) →
      matchHere (w1 ++ 'l' :: 'e' :: 't' ::
        (w2 ++ c :: (ids ++ (wsp ++ d :: rest)))) = none) ∧
    (∀ (w1 w2 : List Char) (d : Char) (rest : List Char),
      w1 ≠ [] → (∀ x ∈ w1, wsChar x = true) →
      w2 ≠ [] → (∀ x ∈ w2, wsChar x = true) →
      identStartChar d = false → wsChar d = false →
      matchHere (w1 ++ 'l' :: 'e' :: 't' :: (w2 ++ d :: rest)) = none) ∧
    re_sub (String.toList "    let x: i32 = 0;")
      = String.toList "    let x: i32 = 0;" ∧
    re_sub (String.toList "    let mut count = 0;")
      = String.toList "    let mut count = 0;" ∧
    re_sub (String.toList "    let (a, b) = pair;")
      = String.toList "    let (a, b) = pair;" := by
  refine ⟨?_, ?_, by decide, by decide, by decide⟩
  · intro w1 w2 c ids wsp d rest hw1 hw1s hw2 hw2s hc hids hwsp hd hdne hwspd
    have e1 : spanP wsChar
        (w1 ++ 'l' :: 'e' :: 't' :: (w2 ++ c :: (ids ++ (wsp ++ d :: rest))))
        = (w1, 'l' :: 'e' :: 't' :: (w2 ++ c :: (ids ++ (wsp ++ d :: rest)))) :=
      spanP_eq_append _ hw1s (by
        intro c' cs' hb
        injection hb with hb1 _
        rw [← hb1]
        decide)
    have e2 : spanP wsChar (w2 ++ c :: (ids ++ (wsp ++ d :: rest)))
        = (w2, c :: (ids ++ (wsp ++ d :: rest))) :=
      spanP_eq_append _ hw2s (by
        intro c' cs' hb
        injection hb with hb1 _
        rw [← hb1]
        exact ws_eq_false_of_identStart hc)
    have e3 : spanP identContChar (ids ++ (wsp ++ d :: rest))
        = (ids, wsp ++ d :: rest) :=
      spanP_eq_append _ hids (by
        intro c' cs' hb
        cases wsp with
        | nil =>
          have hb' : d :: rest = c' :: cs' := hb
          injection hb' with hb1 _
          rw [← hb1]
          exact hwspd rfl
        | cons w ws' =>
          have hb' : w :: (ws' ++ d :: rest) = c' :: cs' := hb
          injection hb' with hb1 _
          rw [← hb1]
          exact identCont_eq_false_of_ws (hwsp w (by simp)))
    have e4 : spanP wsChar (wsp ++ d :: rest) = (wsp, d :: rest) :=
      spanP_eq_append _ hwsp (by
        intro c' cs' hb
        injection hb with hb1 _
        rw [← hb1]
        exact hd)
    simp [matchHere, e1, e2, e3, e4, stripLet_let, hw1, hw2, hc,
      stripEq_none hdne]
  · intro w1 w2 d rest hw1 hw1s hw2 hw2s hds hd
    have e1 : spanP wsChar (w1 ++ 'l' :: 'e' :: 't' :: (w2 ++ d :: rest))
        = (w1, 'l' :: 'e' :: 't' :: (w2 ++ d :: rest)) :=
      spanP_eq_append _ hw1s (by
        intro c' cs' hb
        injection hb with hb1 _
        rw [← hb1]
        decide)
    have e2 : spanP wsChar (w2 ++ d :: rest) = (w2, d :: rest) :=
      spanP_eq_append _ hw2s (by
        intro c' cs' hb
        injection hb with hb1 _
        rw [← hb1]
        exact hd)
    simp [matchHere, e1, e2, stripLet_let, hw1, hw2, hds]

/-- C9 witness: the match fails at the start of `    let mut count = 0;`
(first conjunct, with `mut` as the captured identifier candidate followed by
a space and `c`) and at the start of `    let (a, b) = pair;` (second
conjunct, with `(` unable to start an identifier). -/
theorem C9_witness :
    matchHere ([' '] ++ 'l' :: 'e' :: 't' ::
        ([' '] ++ 'm' :: (['u', 't'] ++ ([' '] ++ 'c' ::
          String.toList "ount = 0;")))) = none ∧
    matchHere ([' '] ++ 'l' :: 'e' :: 't' ::
        ([' '] ++ '(' :: String.toList "a, b) = pair;")) = none :=
  ⟨C9_non_value_bindings_unchanged.1 [' '] [' '] 'm' ['u', 't'] [' '] 'c'
     (String.toList "ount = 0;") (by decide) (by decide) (by decide) (by decide)
     (by decide) (by decide) (by decide) (by decide) (by decide) (by decide),
   C9_non_value_bindings_unchanged.2.1 [' '] [' '] '(' (String.toList "a, b) = pair;")
     (by decide) (by decide) (by decide) (by decide) (by decide) (by decide)⟩

/-- C10: the output of the substitution is byte-identical to the input
outside the matched spans, and inside each matched span the leading
whitespace, the keyword and the whitespace after it, and the identifier are
preserved verbatim, a single underscore is inserted before the identifier,
and only the whitespace before `=` is replaced (by one space): the relation
`Frame` states exactly this decomposition, and it holds between every input
and its substitution output. -/
theorem C10_frame_property (s : List Char) : Frame s (re_sub s) :=
  frame_aux s.length s (le_refl _)

/-- C2 witness: the non-idempotence theorem at the binding ` let x = 5;`:
one pass yields ` let _x = 5;` and the second pass ` let __x = 5;`. -/
theorem C2_witness :
    re_sub ([' '] ++ 'l' :: 'e' :: 't' ::
        ([' '] ++ 'x' :: ([] ++ ([' '] ++ '=' :: [' ', '5', ';']))))
      = [' '] ++ 'l' :: 'e' :: 't' ::
          ([' '] ++ '_' :: 'x' :: ([] ++ ' ' :: '=' :: re_sub [' ', '5', ';'])) ∧
    re_sub (re_sub ([' '] ++ 'l' :: 'e' :: 't' ::
        ([' '] ++ 'x' :: ([] ++ ([' '] ++ '=' :: [' ', '5', ';'])))))
      = [' '] ++ 'l' :: 'e' :: 't' ::
          ([' '] ++ '_' :: '_' :: 'x' ::
            ([] ++ ' ' :: '=' :: re_sub (re_sub [' ', '5', ';']))) :=
  C2_not_idempotent (by decide) (by decide) (by decide) (by decide) (by decide)
    (by decide) (by decide)
